import Mathlib

/-!
# Verification development for `youtube_downloader.cpp`

A shallow embedding of the chunked downloader (`YouTubeDownloader`) and of
`main`, followed by theorems about the chunk plan, the merge, the temp-file
registry, identifier extraction and resolver output selection.

Conventions of the embedding:

* `size_t` is a 64-bit unsigned integer: values are `Nat`, every arithmetic
  operation of the source is reduced modulo `2^64`.
* `int` values are `Int`; conversion to `size_t` is `toSizeT`.
* `std::string` is `String`; for character-level code it is `List Char`.
* The file system is a map from paths to optional contents.
* Network transfers, process spawning and `atoi` are external: they are
  parameters (`Env`) of the functions that call them.
* The `std::async` fan-out of `downloadWithChunks` is linearised in launch
  order; every fetch writes only to its own `.partN` file.
* The destructor is implicitly `noexcept`: when `fs::exists` or `fs::remove`
  throws inside it, `std::terminate` ends the process in the middle of the
  loop. Its outcome is a `Teardown`: the state reached and whether the loop
  ran to its end.
-/

namespace YouTubeDownloader

/-! ## Machine integers -/

/-- Number of values of a `size_t` (64-bit). -/
def SIZE_MOD : Nat := 2 ^ 64

/-- Conversion `int → size_t` (two's complement wrap-around). -/
def toSizeT (n : Int) : Nat := (n % (SIZE_MOD : Int)).toNat

/-- Multiplication in `size_t`. -/
def mulSz (a b : Nat) : Nat := (a * b) % SIZE_MOD

/-- Subtraction in `size_t` (wraps around below zero). -/
def subSz (a b : Nat) : Nat := (a + SIZE_MOD - b % SIZE_MOD) % SIZE_MOD

/-! ## Data model -/

abbrev Bytes := List UInt8

/-- The file system: a path either does not exist or holds a byte sequence. -/
abbrev FS := String → Option Bytes

/-- The effect of `fs::exists`. -/
def FS.fileExists (fs : FS) (p : String) : Bool := (fs p).isSome

/-- The effect of `fs::remove`. -/
def FS.remove (fs : FS) (p : String) : FS := fun q => if q = p then none else fs q

/-- The effect of writing a whole file (created or truncated, then closed). -/
def FS.write (fs : FS) (p : String) (b : Bytes) : FS := fun q => if q = p then some b else fs q

/-- The record `struct DownloadChunk`; the field `end` is named `end_`. -/
structure DownloadChunk where
  url : String
  filename : String
  start : Nat
  end_ : Nat
  chunk_id : Int
  deriving DecidableEq, Repr

/-- The record `struct VideoInfo`. -/
structure VideoInfo where
  video_url : String
  audio_url : String
  video_id : String
  deriving DecidableEq, Repr

/-! ## The chunk plan of `downloadWithChunks` (lines 200-210) -/

/-- The value `content_length / num_threads` (line 200); `num_threads` is converted to
`size_t` by the usual arithmetic conversions. -/
def chunkSize (content_length : Nat) (num_threads : Int) : Nat :=
  content_length / toSizeT num_threads

/-- The value `chunk.start = i * chunk_size` (line 208). -/
def chunkStart (chunk_size : Nat) (i : Int) : Nat :=
  mulSz (toSizeT i) chunk_size

/-- The value
`chunk.end = (i == num_threads - 1) ? content_length - 1 : (i + 1) * chunk_size - 1`
(line 209). -/
def chunkEnd (content_length chunk_size : Nat) (num_threads i : Int) : Nat :=
  if i = num_threads - 1 then subSz content_length 1
  else subSz (mulSz (toSizeT (i + 1)) chunk_size) 1

/-- The value `output_file + ".part" + std::to_string(i)` (line 210). -/
def partName (output_file : String) (i : Nat) : String :=
  output_file ++ ".part" ++ toString i

/-- The body of the planning loop for index `i` (lines 205-210). -/
def mkChunk (url output_file : String) (content_length : Nat) (num_threads : Int) (i : Nat) :
    DownloadChunk :=
  { url := url
    chunk_id := (i : Int)
    start := chunkStart (chunkSize content_length num_threads) (i : Int)
    end_ := chunkEnd content_length (chunkSize content_length num_threads) num_threads (i : Int)
    filename := partName output_file i }

/-- All chunks planned by `for (int i = 0; i < num_threads; ++i)`. -/
def planChunks (url output_file : String) (content_length : Nat) (num_threads : Int) :
    List DownloadChunk :=
  (List.range num_threads.toNat).map (mkChunk url output_file content_length num_threads)

/-- Whether the byte offset `x` lies in the planned range of chunk `c`. -/
def DownloadChunk.covers (c : DownloadChunk) (x : Nat) : Bool :=
  decide (c.start ≤ x) && decide (x ≤ c.end_)

/-! ## Thread-count clamping in `main` (lines 378-382) -/

/-- The value of `num_threads` after lines 378-382: `atoi_arg2` is the result of
`std::atoi(argv[2])`, read only when `argc > 2`. -/
def mainNumThreads (argc : Nat) (atoi_arg2 : Int) : Int :=
  let num_threads := if argc > 2 then atoi_arg2 else 8
  if num_threads < 1 ∨ num_threads > 32 then 8 else num_threads

/-! ## The outside world -/

/-- Actions on the outside world, recorded in program order. -/
inductive Event where
  | probe (url : String)
  | fetchChunk (chunk : DownloadChunk)
  | fetchSingle (url output_file : String)
  | openOutput (file : String)
  | removeFile (file : String)
  | resolver (command : String)
  | muxer (command : String)
  deriving DecidableEq, Repr

/-- What one `curl_easy_perform` delivers: the bytes handed to `WriteFileCallback`
and whether the result code is `CURLE_OK`. -/
structure Transfer where
  body : Bytes
  ok : Bool
  deriving DecidableEq, Repr

/-- The external collaborators of the downloader.
* `getContentLength url`: the value returned by the header-only probe (lines 130-150);
* `transferChunk chunk`: the ranged transfer of `downloadChunk`, `none` when
  `curl_easy_init` gives no handle;
* `transferSingle url`: the same for `downloadSingle`;
* `openWrite path`: whether `std::ofstream(path, std::ios::binary)` opens;
* `executeCommand command`: the text printed by the resolver, `none` when `popen` fails
  (the source then throws `std::runtime_error`);
* `system command fs`: exit status of the muxer and the file system it leaves;
* `atoi text`: the C library function;
* `existsThrows path`: whether the call `fs::exists(path)` of the destructor (line 317)
  fails with `std::filesystem::filesystem_error` (the status of the path cannot be read);
* `removeThrows path`: whether the call `fs::remove(path)` of the destructor (line 318)
  fails with `std::filesystem::filesystem_error` (the path cannot be deleted). -/
structure Env where
  getContentLength : String → Nat
  transferChunk : DownloadChunk → Option Transfer
  transferSingle : String → Option Transfer
  openWrite : String → Bool
  executeCommand : String → Option String
  system : String → FS → Int × FS
  atoi : String → Int
  existsThrows : String → Bool
  removeThrows : String → Bool

/-- The mutable state: the file system, the member `temp_files`, and the trace of
external actions. -/
structure State where
  fs : FS
  temp_files : List String
  log : List Event

/-! ## Identifier extraction (lines 57-65) -/

/-- The character class `[a-zA-Z0-9_-]`. -/
def isIdChar (c : Char) : Bool :=
  (decide ('a' ≤ c) && decide (c ≤ 'z')) || (decide ('A' ≤ c) && decide (c ≤ 'Z')) ||
  (decide ('0' ≤ c) && decide (c ≤ '9')) || c == '_' || c == '-'

/-- The character class `[?&]`. -/
def isSepChar (c : Char) : Bool := c == '?' || c == '&'

/-- A match of `[?&]v=([a-zA-Z0-9_-]{11})` anchored at the head of the text; the result
is capture group 1. -/
def matchVideoIdHere : List Char → Option (List Char)
  | c :: v :: e :: rest =>
    if isSepChar c && v == 'v' && e == '=' && decide ((rest.take 11).length = 11) &&
        (rest.take 11).all isIdChar then
      some (rest.take 11)
    else none
  | _ => none

/-- The call `std::regex_search(url, match, video_id_regex)`: the leftmost match. -/
def regexSearchVideoId : List Char → Option (List Char)
  | [] => none
  | c :: cs =>
    match matchVideoIdHere (c :: cs) with
    | some m => some m
    | none => regexSearchVideoId cs

/-- The method `extractVideoId`. -/
def extractVideoId (url : String) : String :=
  match regexSearchVideoId url.toList with
  | some m => String.mk m
  | none => ""

/-! ## Resolver output (lines 84-128) -/

/-- The lines delivered by successive `std::getline(iss, line)` calls on the remaining
input, `cur` being the characters already read into the current line. -/
def getlinesFrom : List Char → List Char → List (List Char)
  | cur, [] => if cur.isEmpty then [] else [cur]
  | cur, c :: rest => if c = '\n' then cur :: getlinesFrom [] rest else getlinesFrom (cur ++ [c]) rest

/-- All lines read by `while (std::getline(iss, line))`. -/
def getlines (output : List Char) : List (List Char) := getlinesFrom [] output

/-- Lines 107-109: `if (!line.empty() && line.back() == '\r') line.pop_back();`. -/
def stripCR (line : List Char) : List Char :=
  if !line.isEmpty && line.getLast? == some '\r' then line.dropLast else line

/-- Line 110: `!line.empty() && line.find("http") == 0`. -/
def isHttpLine (line : List Char) : Bool :=
  !line.isEmpty && "http".toList.isPrefixOf line

/-- The vector `urls` built by the loop of lines 105-113. -/
def collectUrls (output : String) : List String :=
  (((getlines output.toList).map stripCR).filter isHttpLine).map String.mk

/-- Lines 115-121: the selection of the two streams. -/
def selectUrls (video_id : String) (urls : List String) : VideoInfo :=
  match urls with
  | u0 :: u1 :: _ => { video_url := u0, audio_url := u1, video_id := video_id }
  | [u0] => { video_url := u0, audio_url := "", video_id := video_id }
  | [] => { video_url := "", audio_url := "", video_id := video_id }

/-- The resolver command line of lines 88-95. -/
def resolverCommand (video_id : String) : String :=
  "ytdlp -f \"bestvideo*+bestaudio\" -S \"vcodec:vp9,res,br\" --print urls \"" ++
    ("https://www.youtube.com/watch?v=" ++ video_id) ++ "\""

/-- The method `getVideoUrls`; a failing `popen` throws and the catch block leaves both URLs
empty. -/
def getVideoUrls (env : Env) (video_id : String) (s : State) : VideoInfo × State :=
  let s1 := { s with log := s.log ++ [Event.resolver (resolverCommand video_id)] }
  match env.executeCommand (resolverCommand video_id) with
  | some output => (selectUrls video_id (collectUrls output), s1)
  | none => ({ video_url := "", audio_url := "", video_id := video_id }, s1)

/-! ## Downloads (lines 152-280) -/

/-- The method `downloadChunk`: result and resulting file system. -/
def downloadChunk (env : Env) (chunk : DownloadChunk) (fs : FS) : Bool × FS :=
  match env.transferChunk chunk with
  | none => (false, fs)
  | some t =>
    if env.openWrite chunk.filename then (t.ok, fs.write chunk.filename t.body)
    else (false, fs)

/-- The method `downloadSingle`. -/
def downloadSingle (env : Env) (url output_file : String) (s : State) : Bool × State :=
  let s1 := { s with log := s.log ++ [Event.fetchSingle url output_file] }
  match env.transferSingle url with
  | none => (false, s1)
  | some t =>
    if env.openWrite output_file then (t.ok, { s1 with fs := s1.fs.write output_file t.body })
    else (false, s1)

/-- The planning-and-launch loop (lines 204-218) followed by the join (lines 221-226):
each chunk file is registered in `temp_files`, its fetch is launched, and the results are
collected in launch order. -/
def launchChunks (env : Env) : List DownloadChunk → State → List Bool × State
  | [], s => ([], s)
  | chunk :: rest, s =>
    let r := downloadChunk env chunk s.fs
    let out := launchChunks env rest
      { fs := r.2
        temp_files := s.temp_files ++ [chunk.filename]
        log := s.log ++ [Event.fetchChunk chunk] }
    (r.1 :: out.1, out.2)

/-- The stream `std::ofstream output`: the bytes inserted so far and the stream state. -/
structure OStream where
  data : Bytes
  good : Bool
  deriving DecidableEq, Repr

/-- The insertion `output << input.rdbuf()`: nothing happens on a failed stream, and
inserting no character sets `failbit`. -/
def OStream.insertAll (o : OStream) (b : Bytes) : OStream :=
  if o.good then
    if b.isEmpty then { o with good := false } else { o with data := o.data ++ b }
  else o

/-- The merge loop (lines 241-248). -/
def mergeLoop : List String → OStream → State → OStream × State
  | [], o, s => (o, s)
  | chunk_file :: rest, o, s =>
    match s.fs chunk_file with
    | some b =>
      mergeLoop rest (o.insertAll b)
        { s with fs := s.fs.remove chunk_file, log := s.log ++ [Event.removeFile chunk_file] }
    | none => mergeLoop rest o s

/-- The method `downloadWithChunks`. The result is `none` when the division of line 200
divides by zero. -/
def downloadWithChunks (env : Env) (url output_file : String) (num_threads : Int) (s : State) :
    Option (Bool × State) :=
  let content_length := env.getContentLength url % SIZE_MOD
  let s0 := { s with log := s.log ++ [Event.probe url] }
  if content_length = 0 then some (downloadSingle env url output_file s0)
  else if toSizeT num_threads = 0 then none
  else
    let chunks := planChunks url output_file content_length num_threads
    let chunk_files := chunks.map (fun c => c.filename)
    let launched := launchChunks env chunks s0
    let all_success := launched.1.all id
    if !all_success then some (false, launched.2)
    else
      let s1 := { launched.2 with log := launched.2.log ++ [Event.openOutput output_file] }
      if !env.openWrite output_file then some (false, s1)
      else
        let s2 := { s1 with fs := s1.fs.write output_file [] }
        let merged := mergeLoop chunk_files { data := [], good := true } s2
        some (true, { merged.2 with fs := merged.2.fs.write output_file merged.1.data })

/-! ## Muxing and the top level (lines 282-397) -/

/-- The muxer command line of lines 285-289. -/
def muxCommand (video_file audio_file output_file : String) (fs : FS) : String :=
  if audio_file ≠ "" ∧ fs.fileExists audio_file = true then
    "ffmpeg -i \"" ++ video_file ++ "\" -i \"" ++ audio_file ++
      "\" -c:v libx264 -preset slow -crf 18 -c:a aac -b:a 192k \"" ++ output_file ++ "\" -y"
  else
    "ffmpeg -i \"" ++ video_file ++ "\" -c:v libx264 -preset slow -crf 18 \"" ++ output_file ++
      "\" -y"

/-- The statement `if (fs::exists(p)) fs::remove(p);`. -/
def removeIfExists (p : String) (s : State) : State :=
  if s.fs.fileExists p then
    { s with fs := s.fs.remove p, log := s.log ++ [Event.removeFile p] }
  else s

/-- The method `mergeVideoAudio`. -/
def mergeVideoAudio (env : Env) (video_file audio_file output_file : String) (s : State) :
    Bool × State :=
  let command := muxCommand video_file audio_file output_file s.fs
  let r := env.system command s.fs
  let s1 := { s with fs := r.2, log := s.log ++ [Event.muxer command] }
  if r.1 = 0 then
    let s2 := removeIfExists video_file s1
    let s3 := if audio_file ≠ "" then removeIfExists audio_file s2 else s2
    (true, s3)
  else (false, s1)

/-- The outcome of the destructor: the state it reached, and whether its loop ran to the
end. `completed = false` means that `fs::exists` or `fs::remove` threw: the exception cannot
leave the destructor, `std::terminate` ends the process, and the paths after the failing one
are not visited. -/
structure Teardown where
  state : State
  completed : Bool

/-- The loop `for (const auto& file : temp_files) if (fs::exists(file)) fs::remove(file);`
(lines 316-320) over the paths still to visit. -/
def teardownLoop (env : Env) : List String → State → Teardown
  | [], s => { state := s, completed := true }
  | file :: rest, s =>
    if env.existsThrows file then { state := s, completed := false }
    else if s.fs.fileExists file then
      if env.removeThrows file then { state := s, completed := false }
      else
        teardownLoop env rest
          { s with fs := s.fs.remove file, log := s.log ++ [Event.removeFile file] }
    else teardownLoop env rest s

/-- The destructor `~YouTubeDownloader` (lines 314-322). -/
def destructor (env : Env) (s : State) : Teardown :=
  teardownLoop env s.temp_files s

/-- The method `downloadVideo`. -/
def downloadVideo (env : Env) (url : String) (num_threads : Int) (s : State) :
    Option (Bool × State) :=
  let video_id := extractVideoId url
  if video_id = "" then some (false, s)
  else
    let r := getVideoUrls env video_id s
    let info := r.1
    if info.video_url = "" then some (false, r.2)
    else
      let video_file := video_id ++ "_video.tmp"
      let audio_file := video_id ++ "_audio.tmp"
      let final_file := video_id ++ ".mp4"
      match downloadWithChunks env info.video_url video_file num_threads r.2 with
      | none => none
      | some (false, s1) => some (false, s1)
      | some (true, s1) =>
        if info.audio_url ≠ "" then
          match downloadWithChunks env info.audio_url audio_file num_threads s1 with
          | none => none
          | some (false, s2) => some (mergeVideoAudio env video_file "" final_file s2)
          | some (true, s2) => some (mergeVideoAudio env video_file audio_file final_file s2)
        else some (mergeVideoAudio env video_file audio_file final_file s1)

/-- The function `main`: the value of the executed `return` statement and the outcome of
destroying `downloader` on the way out (no downloader exists yet when the usage message is
printed). The process exits with that value when the teardown completed, and ends in
`std::terminate` otherwise. `argv` includes the program name; `fs` is the file system at
start. -/
def main (env : Env) (argv : List String) (fs : FS) : Option (Int × Teardown) :=
  let start : State := { fs := fs, temp_files := [], log := [] }
  if argv.length < 2 then some (1, { state := start, completed := true })
  else
    let url := argv.getD 1 ""
    let num_threads := mainNumThreads argv.length (env.atoi (argv.getD 2 ""))
    match downloadVideo env url num_threads start with
    | none => none
    | some (true, s) => some (0, destructor env s)
    | some (false, s) => some (1, destructor env s)

/-! ## Reference notions and concrete scenarios -/

/-- The bytes `content[start..end_]` (both bounds inclusive) of a resource, as a server
answers the range request `bytes=start-end_`. -/
def slice (content : Bytes) (start end_ : Nat) : Bytes :=
  (content.drop start).take (end_ + 1 - start)

/-- The state of a fresh downloader on an empty file system. -/
def emptyState : State := { fs := fun _ => none, temp_files := [], log := [] }

/-- A scenario: the resolver prints `resolverOut`; every resource is `content` and a ranged
request is answered with the bytes of the range; the fetch of chunk 1 of a URL listed in
`failing` reports a transport error; the path `out.bin` opens for writing iff `outOpens`,
every other path does; the muxer exits with `muxStatus` and leaves the file system as it
is; `atoi` returns 2; in the destructor every path can be queried and deleted. -/
def scenarioEnv (resolverOut : String) (content : Bytes) (failing : List String)
    (outOpens : Bool) (muxStatus : Int) : Env :=
  { getContentLength := fun _ => content.length
    transferChunk := fun c =>
      some { body := slice content c.start c.end_,
             ok := !(decide (c.url ∈ failing) && decide (c.chunk_id = 1)) }
    transferSingle := fun _ => some { body := content, ok := true }
    openWrite := fun p => outOpens || decide (p ≠ "out.bin")
    executeCommand := fun _ => some resolverOut
    system := fun _ fs => (muxStatus, fs)
    atoi := fun _ => 2
    existsThrows := fun _ => false
    removeThrows := fun _ => false }

/-- A scenario in which the second chunk of the only stream fails, so that both chunk files
are left for the destructor; `locked` lists the paths that cannot be deleted. -/
def failedDownloadEnv (locked : List String) : Env :=
  { scenarioEnv "https://v\n" [1, 2, 3, 4] ["https://v"] true 0 with
    removeThrows := fun p => decide (p ∈ locked) }

/-- A scenario in which the probe reports an unknown size. -/
def unknownSizeEnv : Env :=
  { scenarioEnv "" [1, 2, 3] [] true 0 with getContentLength := fun _ => 0 }

/-- Spec wording for identifier extraction: at position `p` of `url` stands `?v=` or `&v=`
followed by the 11 identifier characters `tok`. -/
def OccursAt (url : List Char) (p : Nat) (tok : List Char) : Prop :=
  ∃ sep post, url.drop p = sep :: 'v' :: '=' :: (tok ++ post) ∧ (sep = '?' ∨ sep = '&') ∧
    tok.length = 11 ∧ ∀ c ∈ tok, isIdChar c = true

/-- Spec wording for the resolver output: one trailing carriage return removed. -/
def specStripCR (line : List Char) : List Char :=
  if line.getLast? = some '\r' then line.dropLast else line

/-- Spec wording for the resolver output: the lines of the text, split on the newline
character, one trailing carriage return removed from each, that are non-empty and begin
with `http`. -/
def specHttpLines (text : String) : List String :=
  (((text.toList.splitOn '\n').map specStripCR).filter
    (fun line => decide (line ≠ [] ∧ "http".toList <+: line))).map String.mk

/-- C4: the effective thread count of `main` is the `atoi` result `n` when a second
argument is present and `1 ≤ n ≤ 32`, it is 8 when `n ≤ 0` or `n > 32`, it is 8 when there
is no second argument, and it always lies in `[1, 32]`. -/
theorem mainNumThreads_clamp (argc : Nat) (n : Int) :
    (2 < argc → 1 ≤ n → n ≤ 32 → mainNumThreads argc n = n) ∧
    (2 < argc → (n ≤ 0 ∨ 32 < n) → mainNumThreads argc n = 8) ∧
    (argc ≤ 2 → mainNumThreads argc n = 8) ∧
    (1 ≤ mainNumThreads argc n ∧ mainNumThreads argc n ≤ 32) := by
  unfold mainNumThreads
  refine ⟨?_, ?_, ?_, ?_⟩
  · intro h1 h2 h3
    simp only [gt_iff_lt, h1, if_true]
    split_ifs with h
    · omega
    · rfl
  · intro h1 h2
    simp only [gt_iff_lt, h1, if_true]
    split_ifs with h
    · rfl
    · omega
  · intro h1
    have : ¬ (2 < argc) := by omega
    simp [this]
  · by_cases h1 : 2 < argc
    · simp only [gt_iff_lt, h1, if_true]
      split_ifs with h <;> omega
    · simp [h1]

/-! ### Fallback to a single stream -/

/-- C5: when the probe returns 0, `downloadWithChunks` returns exactly the result of
`downloadSingle`; `temp_files` is unchanged, the only external actions are the probe and
the single-stream fetch (no chunk fetch), and no path other than the output file is created
or changed. -/
theorem downloadWithChunks_fallback (env : Env) (url output_file : String) (num_threads : Int)
    (s : State) (hprobe : env.getContentLength url = 0) :
    downloadWithChunks env url output_file num_threads s =
        some (downloadSingle env url output_file { s with log := s.log ++ [Event.probe url] }) ∧
    ∃ r s', downloadWithChunks env url output_file num_threads s = some (r, s') ∧
      s'.temp_files = s.temp_files ∧
      s'.log = s.log ++ [Event.probe url, Event.fetchSingle url output_file] ∧
      ∀ p, p ≠ output_file → s'.fs p = s.fs p := by
  have h0 : downloadWithChunks env url output_file num_threads s =
      some (downloadSingle env url output_file { s with log := s.log ++ [Event.probe url] }) := by
    simp [downloadWithChunks, hprobe]
  refine ⟨h0, _, _, by rw [h0], ?_, ?_, ?_⟩
  · unfold downloadSingle
    cases env.transferSingle url <;> simp
    split_ifs <;> rfl
  · unfold downloadSingle
    cases env.transferSingle url <;> simp
    split_ifs <;> simp
  · intro p hp
    unfold downloadSingle
    cases env.transferSingle url <;> simp
    split_ifs <;> simp [FS.write, hp]

/-- Witness of C5 on a scenario whose probe reports 0. -/
theorem downloadWithChunks_fallback_witness :
    unknownSizeEnv.getContentLength "https://v" = 0 ∧
    (downloadWithChunks unknownSizeEnv "https://v" "out.bin" 8 emptyState =
        some (downloadSingle unknownSizeEnv "https://v" "out.bin"
          { emptyState with log := emptyState.log ++ [Event.probe "https://v"] }) ∧
    ∃ r s', downloadWithChunks unknownSizeEnv "https://v" "out.bin" 8 emptyState = some (r, s') ∧
      s'.temp_files = emptyState.temp_files ∧
      s'.log = emptyState.log ++ [Event.probe "https://v", Event.fetchSingle "https://v" "out.bin"] ∧
      ∀ p, p ≠ "out.bin" → s'.fs p = emptyState.fs p) :=
  ⟨rfl, downloadWithChunks_fallback unknownSizeEnv "https://v" "out.bin" 8 emptyState rfl⟩

/-! ### Teardown -/

theorem removeIfExists_fs (p : String) (s : State) (q : String) :
    (removeIfExists p s).fs q = if q = p then none else s.fs q := by
  unfold removeIfExists
  by_cases h : s.fs.fileExists p = true
  · simp [h, FS.remove]
  · simp only [h]
    by_cases hq : q = p
    · subst hq
      simp only [FS.fileExists, Option.isSome_iff_exists, not_exists] at h
      cases hx : s.fs q with
      | none => simp [hx]
      | some b => exact absurd hx (h b)
    · simp [hq]

theorem teardownLoop_fs_other (env : Env) (l : List String) (s : State) (p : String)
    (hp : p ∉ l) : (teardownLoop env l s).state.fs p = s.fs p := by
  induction l generalizing s with
  | nil => rfl
  | cons a l ih =>
    simp only [List.mem_cons, not_or] at hp
    simp only [teardownLoop]
    split_ifs
    · rfl
    · rfl
    · rw [ih _ hp.2]
      simp [FS.remove, hp.1]
    · exact ih _ hp.2

theorem teardownLoop_temp_files (env : Env) (l : List String) (s : State) :
    (teardownLoop env l s).state.temp_files = s.temp_files := by
  induction l generalizing s with
  | nil => rfl
  | cons a l ih =>
    simp only [teardownLoop]
    split_ifs
    · rfl
    · rfl
    · rw [ih]
    · exact ih _

theorem teardownLoop_of_no_fault (env : Env) (l : List String) (s : State)
    (h : ∀ p ∈ l, env.existsThrows p = false ∧ env.removeThrows p = false) :
    (teardownLoop env l s).completed = true ∧
    ∀ p, (teardownLoop env l s).state.fs p = if p ∈ l then none else s.fs p := by
  induction l generalizing s with
  | nil => exact ⟨rfl, fun p => by simp [teardownLoop]⟩
  | cons a l ih =>
    have ha := h a (List.mem_cons_self _ _)
    have hl : ∀ p ∈ l, env.existsThrows p = false ∧ env.removeThrows p = false :=
      fun p hp => h p (List.mem_cons_of_mem _ hp)
    simp only [teardownLoop, ha.1, ha.2, Bool.false_eq_true, if_false]
    by_cases hex : s.fs.fileExists a = true
    · simp only [hex, if_true]
      refine ⟨(ih _ hl).1, fun p => ?_⟩
      rw [(ih _ hl).2 p]
      by_cases h1 : p ∈ l
      · simp [h1]
      · by_cases h2 : p = a
        · simp [h2, FS.remove]
        · simp [h1, h2, FS.remove]
    · simp only [hex, Bool.false_eq_true, if_false]
      refine ⟨(ih _ hl).1, fun p => ?_⟩
      rw [(ih _ hl).2 p]
      by_cases h1 : p ∈ l
      · simp [h1]
      · by_cases h2 : p = a
        · subst h2
          have hnone : s.fs p = none := by
            cases hx : s.fs p with
            | none => rfl
            | some b => exact absurd (by simp [FS.fileExists, hx]) hex
          simp [hnone]
        · simp [h1, h2]

/-- Teardown on the runs where no file-system call of the destructor throws: for every
registry `temp_files` (duplicates and already-missing paths included) whose paths can all be
queried and deleted, the loop runs to its end, afterwards no registered path exists, and
every unregistered path is as it was. -/
theorem destructor_cleanup_of_no_fault (env : Env) (s : State)
    (h : ∀ p ∈ s.temp_files, env.existsThrows p = false ∧ env.removeThrows p = false) :
    (destructor env s).completed = true ∧
    (∀ p ∈ s.temp_files, (destructor env s).state.fs p = none ∧
      (destructor env s).state.fs.fileExists p = false) ∧
    (∀ p, p ∉ s.temp_files → (destructor env s).state.fs p = s.fs p) := by
  have hk := teardownLoop_of_no_fault env s.temp_files s h
  refine ⟨hk.1, ?_, ?_⟩
  · intro p hp
    have : (destructor env s).state.fs p = none := by
      unfold destructor
      rw [hk.2 p, if_pos hp]
    exact ⟨this, by simp [FS.fileExists, this]⟩
  · intro p hp
    unfold destructor
    rw [hk.2 p, if_neg hp]

/-- Whatever happens in the destructor, an unregistered path is left as it was. -/
theorem destructor_keeps_unregistered (env : Env) (s : State) (p : String)
    (hp : p ∉ s.temp_files) : (destructor env s).state.fs p = s.fs p :=
  teardownLoop_fs_other env s.temp_files s p hp

/-- C6 (evaluation at the failing input): the second chunk of the video stream fails, so
both chunk files are registered and left on disk, and `main` executes `return 1`. When the
first chunk file cannot be deleted, `fs::remove` throws inside the destructor: the loop does
not complete (the process ends in `std::terminate`) and both registered paths still exist,
the deletable second one included. When every path can be deleted, the same run completes
the loop and leaves neither path. -/
theorem main_teardown_aborts_on_undeletable_path :
    (main (failedDownloadEnv ["dQw4w9WgXcQ_video.tmp.part0"])
        ["ytdl", "https://www.youtube.com/watch?v=dQw4w9WgXcQ", "2"] (fun _ => none)).map
      (fun r => (r.1, r.2.completed, r.2.state.temp_files)) =
    some (1, false, ["dQw4w9WgXcQ_video.tmp.part0", "dQw4w9WgXcQ_video.tmp.part1"]) ∧
    (main (failedDownloadEnv ["dQw4w9WgXcQ_video.tmp.part0"])
        ["ytdl", "https://www.youtube.com/watch?v=dQw4w9WgXcQ", "2"] (fun _ => none)).map
      (fun r => (r.2.state.fs "dQw4w9WgXcQ_video.tmp.part0",
        r.2.state.fs "dQw4w9WgXcQ_video.tmp.part1")) =
    some (some [1, 2], some [3, 4]) ∧
    (main (failedDownloadEnv [])
        ["ytdl", "https://www.youtube.com/watch?v=dQw4w9WgXcQ", "2"] (fun _ => none)).map
      (fun r => (r.1, r.2.completed, r.2.state.temp_files)) =
    some (1, true, ["dQw4w9WgXcQ_video.tmp.part0", "dQw4w9WgXcQ_video.tmp.part1"]) ∧
    (main (failedDownloadEnv [])
        ["ytdl", "https://www.youtube.com/watch?v=dQw4w9WgXcQ", "2"] (fun _ => none)).map
      (fun r => (r.2.state.fs "dQw4w9WgXcQ_video.tmp.part0",
        r.2.state.fs "dQw4w9WgXcQ_video.tmp.part1")) =
    some (none, none) := by
  refine ⟨by decide, by decide, by decide, by decide⟩

/-! ### The launch loop -/

theorem launchChunks_log (env : Env) (cs : List DownloadChunk) (s : State) :
    (launchChunks env cs s).2.log = s.log ++ cs.map Event.fetchChunk := by
  induction cs generalizing s with
  | nil => simp [launchChunks]
  | cons c cs ih => simp [launchChunks, ih]

theorem launchChunks_temp_files (env : Env) (cs : List DownloadChunk) (s : State) :
    (launchChunks env cs s).2.temp_files = s.temp_files ++ cs.map (fun c => c.filename) := by
  induction cs generalizing s with
  | nil => simp [launchChunks]
  | cons c cs ih => simp [launchChunks, ih]

theorem downloadChunk_fs_other (env : Env) (c : DownloadChunk) (fs : FS) (p : String)
    (hp : p ≠ c.filename) : (downloadChunk env c fs).2 p = fs p := by
  unfold downloadChunk
  cases env.transferChunk c with
  | none => rfl
  | some t =>
    by_cases h : env.openWrite c.filename = true
    · simp [h, FS.write, hp]
    · simp [h]

theorem downloadChunk_keeps (env : Env) (c : DownloadChunk) (fs : FS) (p : String)
    (hp : fs p ≠ none) : (downloadChunk env c fs).2 p ≠ none := by
  unfold downloadChunk
  cases env.transferChunk c with
  | none => exact hp
  | some t =>
    by_cases h : env.openWrite c.filename = true
    · by_cases hq : p = c.filename
      · simp [h, FS.write, hq]
      · simp [h, FS.write, hq, hp]
    · simpa [h] using hp

theorem launchChunks_fs_other (env : Env) (cs : List DownloadChunk) (s : State) (p : String)
    (hp : p ∉ cs.map (fun c => c.filename)) : (launchChunks env cs s).2.fs p = s.fs p := by
  induction cs generalizing s with
  | nil => simp [launchChunks]
  | cons c cs ih =>
    simp only [List.map_cons, List.mem_cons, not_or] at hp
    simp only [launchChunks]
    rw [ih _ hp.2]
    exact downloadChunk_fs_other env c s.fs p hp.1

theorem launchChunks_keeps (env : Env) (cs : List DownloadChunk) (s : State) (p : String)
    (hp : s.fs p ≠ none) : (launchChunks env cs s).2.fs p ≠ none := by
  induction cs generalizing s with
  | nil => simpa [launchChunks] using hp
  | cons c cs ih =>
    simp only [launchChunks]
    exact ih _ (downloadChunk_keeps env c s.fs p hp)

theorem partName_ne_self (output_file : String) (i : Nat) : partName output_file i ≠ output_file := by
  intro h
  have hl := congrArg String.length h
  simp [partName, String.length_append] at hl
  have : (".part" : String).length = 5 := by decide
  omega

theorem planChunks_filenames (url output_file : String) (content_length : Nat) (num_threads : Int) :
    (planChunks url output_file content_length num_threads).map (fun c => c.filename) =
      (List.range num_threads.toNat).map (partName output_file) := by
  simp [planChunks, mkChunk, Function.comp_def]

theorem output_not_part (url output_file : String) (content_length : Nat) (num_threads : Int) :
    output_file ∉ (planChunks url output_file content_length num_threads).map (fun c => c.filename) := by
  rw [planChunks_filenames]
  simp only [List.mem_map, List.mem_range, not_exists, not_and]
  intro i _ h
  exact partName_ne_self output_file i h

theorem toSizeT_of_pos (n : Int) (h1 : 1 ≤ n) (h2 : n ≤ 2147483647) : toSizeT n = n.toNat := by
  unfold toSizeT SIZE_MOD
  have : n % ((2 ^ 64 : Nat) : Int) = n := Int.emod_eq_of_lt (by omega) (by norm_num; omega)
  rw [this]

/-! ### All-or-nothing merge -/

/-- C3: when the probed size is non-zero and at least one chunk fetch returns false,
`downloadWithChunks` returns false in exactly the state left by the fetches: the trace holds
the probe and the chunk fetches only (the output is never opened, no file is removed), the
output file is untouched and no file that existed before or was written by a fetch is
deleted. -/
theorem downloadWithChunks_all_or_nothing (env : Env) (url output_file : String)
    (num_threads : Int) (s : State)
    (hsize : env.getContentLength url % SIZE_MOD ≠ 0)
    (hint : num_threads ≤ 2147483647)
    (hfail : false ∈ (launchChunks env
        (planChunks url output_file (env.getContentLength url % SIZE_MOD) num_threads)
        { s with log := s.log ++ [Event.probe url] }).1) :
    ∃ s', downloadWithChunks env url output_file num_threads s = some (false, s') ∧
      s' = (launchChunks env
        (planChunks url output_file (env.getContentLength url % SIZE_MOD) num_threads)
        { s with log := s.log ++ [Event.probe url] }).2 ∧
      s'.log = s.log ++ Event.probe url ::
        (planChunks url output_file (env.getContentLength url % SIZE_MOD) num_threads).map
          Event.fetchChunk ∧
      (∀ f, Event.openOutput f ∈ s'.log → Event.openOutput f ∈ s.log) ∧
      (∀ f, Event.removeFile f ∈ s'.log → Event.removeFile f ∈ s.log) ∧
      s'.fs output_file = s.fs output_file ∧
      (∀ p, s.fs p ≠ none → s'.fs p ≠ none) := by
  have hpos : 1 ≤ num_threads := by
    by_contra hneg
    have h0 : num_threads.toNat = 0 := by omega
    simp [planChunks, h0, launchChunks] at hfail
  have hsz : toSizeT num_threads ≠ 0 := by
    rw [toSizeT_of_pos num_threads hpos hint]
    omega
  have hall : ((launchChunks env
        (planChunks url output_file (env.getContentLength url % SIZE_MOD) num_threads)
        { s with log := s.log ++ [Event.probe url] }).1.all id) = false := by
    rw [List.all_eq_false]
    exact ⟨false, hfail, by simp⟩
  have hlog := launchChunks_log env
    (planChunks url output_file (env.getContentLength url % SIZE_MOD) num_threads)
    { s with log := s.log ++ [Event.probe url] }
  refine ⟨_, ?_, rfl, ?_, ?_, ?_, ?_, ?_⟩
  · simp [downloadWithChunks, hsize, hsz, hall]
  · rw [hlog]
    simp
  · intro f hf
    rw [hlog] at hf
    simpa using hf
  · intro f hf
    rw [hlog] at hf
    simpa using hf
  · rw [launchChunks_fs_other env _ _ output_file (output_not_part _ _ _ _)]
  · intro p hp
    exact launchChunks_keeps env _ _ p hp

/-- Witness of C3: a 4-byte resource fetched in two chunks, the second of which fails. -/
theorem downloadWithChunks_all_or_nothing_witness :
    (scenarioEnv "" [1, 2, 3, 4] ["https://v"] true 0).getContentLength "https://v" % SIZE_MOD ≠ 0 ∧
    (launchChunks (scenarioEnv "" [1, 2, 3, 4] ["https://v"] true 0)
        (planChunks "https://v" "out.bin" 4 2) emptyState).1 = [true, false] ∧
    (downloadWithChunks (scenarioEnv "" [1, 2, 3, 4] ["https://v"] true 0) "https://v" "out.bin" 2
        emptyState).map Prod.fst = some false := by
  refine ⟨by decide, by decide, ?_⟩
  obtain ⟨s', h, _⟩ := downloadWithChunks_all_or_nothing
    (scenarioEnv "" [1, 2, 3, 4] ["https://v"] true 0) "https://v" "out.bin" 2 emptyState
    (by decide) (by decide) (by decide)
  rw [h]
  rfl

/-! ### Failure propagation in `downloadVideo` -/

/-- C7 (evaluation at the failing input): both streams download, the muxer exits with
status 1, `main` returns 1, and after the destructor has run (to the end of its loop) both
stream input files still exist with their content; `temp_files` holds only the `.partN`
names. -/
theorem main_mux_failure_leaves_stream_files :
    (main (scenarioEnv "https://v\nhttps://a\n" [1, 2, 3, 4] [] true 1)
        ["ytdl", "https://www.youtube.com/watch?v=dQw4w9WgXcQ", "2"] (fun _ => none)).map
      (fun r => (r.1, r.2.state.fs "dQw4w9WgXcQ_video.tmp", r.2.state.fs "dQw4w9WgXcQ_audio.tmp",
        r.2.state.temp_files)) =
    some (1, some [1, 2, 3, 4], some [1, 2, 3, 4],
      ["dQw4w9WgXcQ_video.tmp.part0", "dQw4w9WgXcQ_video.tmp.part1",
       "dQw4w9WgXcQ_audio.tmp.part0", "dQw4w9WgXcQ_audio.tmp.part1"]) ∧
    (main (scenarioEnv "https://v\nhttps://a\n" [1, 2, 3, 4] [] true 1)
        ["ytdl", "https://www.youtube.com/watch?v=dQw4w9WgXcQ", "2"] (fun _ => none)).map
      (fun r => r.2.completed) = some true := by
  refine ⟨by decide, by decide⟩

/-! ### The chunk plan -/

/-- C1 (evaluation at the failing input): for a 1-byte resource and 2 chunks the planned
ranges are `[0, 2^64 - 1]` and `[0, 0]`, so byte offset 0 lies in both ranges. -/
theorem planChunks_overlap_when_size_below_count :
    (planChunks "https://v" "out.bin" 1 2).map (fun c => (c.start, c.end_)) =
      [(0, 18446744073709551615), (0, 0)] ∧
    ((planChunks "https://v" "out.bin" 1 2).filter (fun c => c.covers 0)).length = 2 := by
  decide

/-! ### Identifier extraction -/

theorem matchVideoIdHere_eq_some (l tok : List Char) :
    matchVideoIdHere l = some tok ↔
      ∃ sep post, l = sep :: 'v' :: '=' :: (tok ++ post) ∧ (sep = '?' ∨ sep = '&') ∧
        tok.length = 11 ∧ ∀ c ∈ tok, isIdChar c = true := by
  constructor
  · intro h
    match l, h with
    | c :: v :: e :: rest, h =>
      simp only [matchVideoIdHere] at h
      split_ifs at h with hc
      simp only [Bool.and_eq_true, beq_iff_eq, decide_eq_true_eq, List.all_eq_true,
        isSepChar, Bool.or_eq_true] at hc
      obtain ⟨⟨⟨⟨hsep, hv⟩, he⟩, hlen⟩, hall⟩ := hc
      have htok : List.take 11 rest = tok := by simpa using h
      refine ⟨c, rest.drop 11, ?_, hsep, ?_, ?_⟩
      · rw [hv, he, ← htok, List.take_append_drop]
      · rw [← htok]; exact hlen
      · rw [← htok]; exact hall
  · rintro ⟨sep, post, rfl, hsep, hlen, hall⟩
    have htake : List.take 11 (tok ++ post) = tok := by
      rw [← hlen]; exact List.take_left' rfl
    simp only [matchVideoIdHere, htake]
    have hc : (isSepChar sep && 'v' == 'v' && '=' == '=' && decide (tok.length = 11) &&
        tok.all isIdChar) = true := by
      simp only [Bool.and_eq_true, beq_iff_eq, decide_eq_true_eq, List.all_eq_true,
        isSepChar, Bool.or_eq_true]
      exact ⟨⟨⟨⟨hsep, trivial⟩, trivial⟩, hlen⟩, hall⟩
    rw [if_pos hc]

theorem occursAt_zero (l tok : List Char) : OccursAt l 0 tok ↔ matchVideoIdHere l = some tok := by
  rw [matchVideoIdHere_eq_some]
  simp [OccursAt]

theorem occursAt_succ (c : Char) (cs : List Char) (q : Nat) (tok : List Char) :
    OccursAt (c :: cs) (q + 1) tok ↔ OccursAt cs q tok := by
  simp [OccursAt]

theorem not_occursAt_nil (p : Nat) (tok : List Char) : ¬ OccursAt [] p tok := by
  simp [OccursAt]

theorem regexSearchVideoId_spec (l : List Char) :
    (regexSearchVideoId l = none ∧ ∀ p tok, ¬ OccursAt l p tok) ∨
    (∃ p tok, regexSearchVideoId l = some tok ∧ OccursAt l p tok ∧
      ∀ q tok', OccursAt l q tok' → p ≤ q) := by
  induction l with
  | nil => exact Or.inl ⟨rfl, fun p tok => not_occursAt_nil p tok⟩
  | cons c cs ih =>
    cases hm : matchVideoIdHere (c :: cs) with
    | some m =>
      right
      refine ⟨0, m, by simp [regexSearchVideoId, hm], (occursAt_zero _ _).2 hm, fun q _ _ => Nat.zero_le q⟩
    | none =>
      have hstep : regexSearchVideoId (c :: cs) = regexSearchVideoId cs := by
        simp [regexSearchVideoId, hm]
      have hzero : ∀ tok, ¬ OccursAt (c :: cs) 0 tok := by
        intro tok h
        rw [occursAt_zero, hm] at h
        exact Option.noConfusion h
      rcases ih with ⟨hnone, hno⟩ | ⟨p, tok, hsome, hocc, hmin⟩
      · left
        refine ⟨by rw [hstep, hnone], ?_⟩
        intro p tok h
        cases p with
        | zero => exact hzero tok h
        | succ q => exact hno q tok ((occursAt_succ c cs q tok).1 h)
      · right
        refine ⟨p + 1, tok, by rw [hstep, hsome], (occursAt_succ c cs p tok).2 hocc, ?_⟩
        intro q tok' h
        cases q with
        | zero => exact absurd h (hzero tok')
        | succ q =>
          have := hmin q tok' ((occursAt_succ c cs q tok').1 h)
          omega

theorem occursAt_length {l : List Char} {p : Nat} {tok : List Char} (h : OccursAt l p tok) :
    tok.length = 11 := by
  obtain ⟨_, _, _, _, hlen, _⟩ := h
  exact hlen

/-- C8: `extractVideoId` returns either the empty string (and then no `?v=`/`&v=` followed
by 11 identifier characters occurs in the URL) or the 11 identifier characters standing
right after the first such occurrence; it returns the empty string exactly when there is no
occurrence, and then `downloadVideo` returns false in an unchanged state (no resolver call,
no probe, no download). -/
theorem extractVideoId_spec (url : String) :
    ((extractVideoId url = "" ∧ ∀ p tok, ¬ OccursAt url.toList p tok) ∨
     (∃ p tok, OccursAt url.toList p tok ∧ (∀ q tok', OccursAt url.toList q tok' → p ≤ q) ∧
        extractVideoId url = String.mk tok ∧ (extractVideoId url).length = 11 ∧
        ∀ c ∈ (extractVideoId url).toList, isIdChar c = true)) ∧
    (extractVideoId url = "" ↔ ∀ p tok, ¬ OccursAt url.toList p tok) ∧
    (extractVideoId url = "" →
      ∀ (env : Env) (num_threads : Int) (s : State),
        downloadVideo env url num_threads s = some (false, s)) := by
  have key : (extractVideoId url = "" ∧ ∀ p tok, ¬ OccursAt url.toList p tok) ∨
     (∃ p tok, OccursAt url.toList p tok ∧ (∀ q tok', OccursAt url.toList q tok' → p ≤ q) ∧
        extractVideoId url = String.mk tok ∧ (extractVideoId url).length = 11 ∧
        ∀ c ∈ (extractVideoId url).toList, isIdChar c = true) := by
    rcases regexSearchVideoId_spec url.toList with ⟨hnone, hno⟩ | ⟨p, tok, hsome, hocc, hmin⟩
    · left
      exact ⟨by unfold extractVideoId; rw [hnone], hno⟩
    · right
      have hx : extractVideoId url = String.mk tok := by unfold extractVideoId; rw [hsome]
      refine ⟨p, tok, hocc, hmin, hx, ?_, ?_⟩
      · rw [hx]
        simpa [String.length] using occursAt_length hocc
      · rw [hx]
        obtain ⟨_, _, _, _, _, hall⟩ := hocc
        simpa using hall
  refine ⟨key, ?_, ?_⟩
  · constructor
    · intro hempty
      rcases key with ⟨_, hno⟩ | ⟨p, tok, _, _, _, hlen, _⟩
      · exact hno
      · rw [hempty] at hlen
        exact absurd hlen (by decide)
    · intro hno
      rcases key with ⟨h, _⟩ | ⟨p, tok, hocc, _⟩
      · exact h
      · exact absurd hocc (hno p tok)
  · intro hempty env num_threads s
    simp [downloadVideo, hempty]

/-! ### Resolver output selection -/

theorem stripCR_eq_spec (line : List Char) : stripCR line = specStripCR line := by
  unfold stripCR specStripCR
  cases line with
  | nil => simp
  | cons a l => simp

theorem isHttpLine_eq_spec (line : List Char) :
    isHttpLine line = decide (line ≠ [] ∧ "http".toList <+: line) := by
  unfold isHttpLine
  cases line with
  | nil => simp
  | cons a l =>
    rw [Bool.eq_iff_iff]
    simp [List.isPrefixOf_iff_prefix]

theorem getlinesFrom_filter (cur l : List Char) :
    ((getlinesFrom cur l).map stripCR).filter isHttpLine =
      (((l.splitOn '\n').modifyHead (cur ++ ·)).map stripCR).filter isHttpLine := by
  induction l generalizing cur with
  | nil =>
    simp only [getlinesFrom, List.splitOn_nil, List.modifyHead_cons, List.append_nil]
    cases cur with
    | nil => simp [stripCR, isHttpLine]
    | cons a t => simp
  | cons c rest ih =>
    simp only [getlinesFrom, List.splitOn, List.splitOnP_cons]
    by_cases hc : c = '\n'
    · subst hc
      have h0 := ih []
      simp only [List.nil_append] at h0
      have hid : (List.modifyHead (fun x : List Char => x) (List.splitOn '\n' rest)) =
          List.splitOn '\n' rest := by
        cases List.splitOn '\n' rest <;> simp
      rw [hid] at h0
      simp only [if_true, beq_self_eq_true, List.modifyHead_cons, List.map_cons, List.append_nil]
      simp only [List.splitOn] at h0
      by_cases hk : isHttpLine (stripCR cur) = true
      · simp [List.filter_cons, hk, h0]
      · simp [List.filter_cons, hk, h0]
    · have hb : (c == '\n') = false := by simpa using hc
      simp only [hc, if_false, hb, Bool.false_eq_true, List.modifyHead_modifyHead]
      have h1 := ih (cur ++ [c])
      simp only [List.splitOn] at h1
      rw [h1]
      congr 2
      cases List.splitOnP (fun x => x == '\n') rest <;> simp

theorem collectUrls_eq_spec (output : String) : collectUrls output = specHttpLines output := by
  unfold collectUrls specHttpLines getlines
  rw [getlinesFrom_filter]
  have hid : (List.modifyHead (fun x : List Char => [] ++ x) (List.splitOn '\n' output.toList)) =
      List.splitOn '\n' output.toList := by
    cases List.splitOn '\n' output.toList <;> simp
  rw [hid]
  congr 1
  have h1 : stripCR = specStripCR := funext stripCR_eq_spec
  have h2 : isHttpLine = fun line => decide (line ≠ [] ∧ "http".toList <+: line) :=
    funext isHttpLine_eq_spec
  rw [h1, h2]

/-- C10: with `L` the non-empty lines of the resolver output that begin with `http` (split
on the newline character, one trailing carriage return removed), `getVideoUrls` sets
`video_url` to the first and `audio_url` to the second element of `L` when `L` has at least
two elements (later elements are ignored), `video_url` to the only element and `audio_url`
to the empty string when `L` has one element, and both to the empty string when `L` is
empty; in the last case `downloadVideo` returns false. -/
theorem getVideoUrls_selection (env : Env) (video_id output : String) (s : State)
    (hout : env.executeCommand (resolverCommand video_id) = some output) :
    (∀ u0 u1 rest, specHttpLines output = u0 :: u1 :: rest →
      (getVideoUrls env video_id s).1.video_url = u0 ∧
      (getVideoUrls env video_id s).1.audio_url = u1) ∧
    (∀ u0, specHttpLines output = [u0] →
      (getVideoUrls env video_id s).1.video_url = u0 ∧
      (getVideoUrls env video_id s).1.audio_url = "") ∧
    (specHttpLines output = [] →
      (getVideoUrls env video_id s).1.video_url = "" ∧
      (getVideoUrls env video_id s).1.audio_url = "") ∧
    (specHttpLines output = [] → ∀ (url : String) (num_threads : Int),
      extractVideoId url = video_id → video_id ≠ "" →
      downloadVideo env url num_threads s = some (false, (getVideoUrls env video_id s).2)) := by
  have hget : (getVideoUrls env video_id s).1 = selectUrls video_id (specHttpLines output) := by
    simp only [getVideoUrls, hout, collectUrls_eq_spec]
  refine ⟨?_, ?_, ?_, ?_⟩
  · intro u0 u1 rest hL
    rw [hget, hL]
    exact ⟨rfl, rfl⟩
  · intro u0 hL
    rw [hget, hL]
    exact ⟨rfl, rfl⟩
  · intro hL
    rw [hget, hL]
    exact ⟨rfl, rfl⟩
  · intro hL url num_threads hid hne
    have hv : (getVideoUrls env video_id s).1.video_url = "" := by
      rw [hget, hL]
      rfl
    subst hid
    simp only [downloadVideo, hne, if_false, hv, if_true]

/-- Witness of C10: a resolver output with Windows line ends, a noise line and three
URLs. -/
theorem getVideoUrls_selection_witness :
    (scenarioEnv "WARNING: x\nhttps://v\r\n\nhttps://a\nhttps://c" [1] [] true 0).executeCommand
        (resolverCommand "dQw4w9WgXcQ") = some "WARNING: x\nhttps://v\r\n\nhttps://a\nhttps://c" ∧
    specHttpLines "WARNING: x\nhttps://v\r\n\nhttps://a\nhttps://c" =
      ["https://v", "https://a", "https://c"] ∧
    (getVideoUrls (scenarioEnv "WARNING: x\nhttps://v\r\n\nhttps://a\nhttps://c" [1] [] true 0)
        "dQw4w9WgXcQ" emptyState).1.video_url = "https://v" ∧
    (getVideoUrls (scenarioEnv "WARNING: x\nhttps://v\r\n\nhttps://a\nhttps://c" [1] [] true 0)
        "dQw4w9WgXcQ" emptyState).1.audio_url = "https://a" :=
  ⟨rfl, by decide,
    (getVideoUrls_selection
      (scenarioEnv "WARNING: x\nhttps://v\r\n\nhttps://a\nhttps://c" [1] [] true 0)
      "dQw4w9WgXcQ" "WARNING: x\nhttps://v\r\n\nhttps://a\nhttps://c" emptyState rfl).1
      "https://v" "https://a" ["https://c"] (by decide)⟩

/-! ### Arithmetic of the chunk plan when the size is at least the chunk count -/

theorem toSizeT_natCast (i : Nat) (h : i < SIZE_MOD) : toSizeT (i : Int) = i := by
  unfold toSizeT
  have : ((i : Int) % (SIZE_MOD : Int)) = (i : Int) :=
    Int.emod_eq_of_lt (by omega) (by exact_mod_cast h)
  rw [this]
  simp

theorem subSz_one (a : Nat) (h1 : 1 ≤ a) (h2 : a < SIZE_MOD) : subSz a 1 = a - 1 := by
  unfold subSz
  have hm : 1 % SIZE_MOD = 1 := by unfold SIZE_MOD; norm_num
  rw [hm]
  have : a + SIZE_MOD - 1 = (a - 1) + SIZE_MOD := by omega
  rw [this, Nat.add_mod_right]
  exact Nat.mod_eq_of_lt (by omega)

theorem mul_chunk_le (S N i : Nat) (hi : i ≤ N) : i * (S / N) ≤ S :=
  le_trans (Nat.mul_le_mul_right _ hi) (Nat.mul_div_le S N)

theorem mkChunk_start (url output_file : String) (S : Nat) (n : Int) (i : Nat)
    (h1 : 1 ≤ n) (h2 : n ≤ 2147483647) (hS : S < SIZE_MOD) (hi : i < n.toNat) :
    (mkChunk url output_file S n i).start = i * (S / n.toNat) := by
  have hle := mul_chunk_le S n.toNat i (le_of_lt hi)
  have hi' : i < SIZE_MOD := by unfold SIZE_MOD; omega
  simp only [mkChunk, chunkStart, chunkSize, toSizeT_of_pos n h1 h2, toSizeT_natCast i hi', mulSz]
  exact Nat.mod_eq_of_lt (by omega)

theorem mkChunk_end_inner (url output_file : String) (S : Nat) (n : Int) (i : Nat)
    (h1 : 1 ≤ n) (h2 : n ≤ 2147483647) (hS : S < SIZE_MOD) (hN : n.toNat ≤ S)
    (hi : i + 1 < n.toNat) :
    (mkChunk url output_file S n i).end_ = (i + 1) * (S / n.toNat) - 1 := by
  have hle := mul_chunk_le S n.toNat (i + 1) (le_of_lt hi)
  have hcs : 1 ≤ S / n.toNat := (Nat.one_le_div_iff (by omega)).2 hN
  have hpos : 1 ≤ (i + 1) * (S / n.toNat) := Nat.mul_pos (by omega) hcs
  have hne : ¬ ((i : Int) = n - 1) := by omega
  have hi' : i + 1 < SIZE_MOD := by unfold SIZE_MOD; omega
  have hcast : toSizeT ((i : Int) + 1) = i + 1 := by
    have := toSizeT_natCast (i + 1) hi'
    simpa using this
  simp only [mkChunk, chunkEnd, chunkSize, toSizeT_of_pos n h1 h2, hne, if_false, hcast, mulSz]
  rw [Nat.mod_eq_of_lt (by omega)]
  exact subSz_one _ hpos (by omega)

theorem mkChunk_end_last (url output_file : String) (S : Nat) (n : Int) (i : Nat)
    (h1 : 1 ≤ n) (hS1 : 1 ≤ S) (hS : S < SIZE_MOD) (hi : i + 1 = n.toNat) :
    (mkChunk url output_file S n i).end_ = S - 1 := by
  have he : (i : Int) = n - 1 := by omega
  simp only [mkChunk, chunkEnd, he, if_true]
  exact subSz_one S hS1 hS

/-! ### The chunk plan when the size is at least the chunk count -/

theorem covers_inner (url output_file : String) (S : Nat) (n : Int) (i x : Nat)
    (h1 : 1 ≤ n) (h2 : n ≤ 2147483647) (hS : S < SIZE_MOD) (hN : n.toNat ≤ S)
    (hi : i + 1 < n.toNat) :
    (mkChunk url output_file S n i).covers x = true ↔
      i * (S / n.toNat) ≤ x ∧ x < (i + 1) * (S / n.toNat) := by
  have hcs : 1 ≤ S / n.toNat := (Nat.one_le_div_iff (by omega)).2 hN
  have hpos : 1 ≤ (i + 1) * (S / n.toNat) := Nat.mul_pos (by omega) hcs
  simp only [DownloadChunk.covers, Bool.and_eq_true, decide_eq_true_eq,
    mkChunk_start url output_file S n i h1 h2 hS (by omega),
    mkChunk_end_inner url output_file S n i h1 h2 hS hN hi]
  omega

theorem covers_last (url output_file : String) (S : Nat) (n : Int) (i x : Nat)
    (h1 : 1 ≤ n) (h2 : n ≤ 2147483647) (hS : S < SIZE_MOD) (hN : n.toNat ≤ S)
    (hi : i + 1 = n.toNat) :
    (mkChunk url output_file S n i).covers x = true ↔ i * (S / n.toNat) ≤ x ∧ x < S := by
  simp only [DownloadChunk.covers, Bool.and_eq_true, decide_eq_true_eq,
    mkChunk_start url output_file S n i h1 h2 hS (by omega),
    mkChunk_end_last url output_file S n i h1 (by omega) hS hi]
  omega

/-- Partition property of the chunk plan on the sizes where it holds: for `1 ≤ N ≤ 32` and
`N ≤ S < 2^64` the ranges are ordered (`start ≤ end`), start at 0, each range starts right
after the previous one ends, the last one ends at `S - 1` and has length
`S / N + S % N`, and every byte offset below `S` lies in exactly one range. -/
theorem planChunks_partition_of_le (url output_file : String) (S : Nat) (n : Int)
    (h1 : 1 ≤ n) (h32 : n ≤ 32) (hN : n.toNat ≤ S) (hS : S < SIZE_MOD) :
    planChunks url output_file S n = (List.range n.toNat).map (mkChunk url output_file S n) ∧
    (mkChunk url output_file S n 0).start = 0 ∧
    (∀ i, i < n.toNat →
      (mkChunk url output_file S n i).start ≤ (mkChunk url output_file S n i).end_) ∧
    (∀ i, i + 1 < n.toNat →
      (mkChunk url output_file S n (i + 1)).start = (mkChunk url output_file S n i).end_ + 1) ∧
    (mkChunk url output_file S n (n.toNat - 1)).end_ = S - 1 ∧
    (mkChunk url output_file S n (n.toNat - 1)).end_ + 1 -
        (mkChunk url output_file S n (n.toNat - 1)).start = S / n.toNat + S % n.toNat ∧
    (∀ x, x < S → ∃! i, i < n.toNat ∧ (mkChunk url output_file S n i).covers x = true) := by
  have h2 : n ≤ 2147483647 := by omega
  have hcs : 1 ≤ S / n.toNat := (Nat.one_le_div_iff (by omega)).2 hN
  have hlast := mkChunk_end_last url output_file S n (n.toNat - 1) h1 (by omega) hS (by omega)
  have hlastStart := mkChunk_start url output_file S n (n.toNat - 1) h1 h2 hS (by omega)
  have hmul : (n.toNat - 1) * (S / n.toNat) + S / n.toNat + S % n.toNat = S := by
    have hdm := Nat.div_add_mod S n.toNat
    have hsplit : ∀ m c : Nat, 1 ≤ m → m * c = (m - 1) * c + c := by
      intro m c hm
      obtain ⟨k, rfl⟩ : ∃ k, m = k + 1 := ⟨m - 1, by omega⟩
      simp [Nat.succ_mul]
    have := hsplit n.toNat (S / n.toNat) (by omega)
    omega
  refine ⟨rfl, ?_, ?_, ?_, hlast, ?_, ?_⟩
  · rw [mkChunk_start url output_file S n 0 h1 h2 hS (by omega)]
    simp
  · intro i hi
    rw [mkChunk_start url output_file S n i h1 h2 hS hi]
    by_cases hl : i + 1 = n.toNat
    · rw [mkChunk_end_last url output_file S n i h1 (by omega) hS hl]
      have hi1 : i = n.toNat - 1 := by omega
      rw [hi1]
      omega
    · rw [mkChunk_end_inner url output_file S n i h1 h2 hS hN (by omega), Nat.succ_mul]
      omega
  · intro i hi
    have hpos : 1 ≤ (i + 1) * (S / n.toNat) := Nat.mul_pos (by omega) hcs
    rw [mkChunk_start url output_file S n (i + 1) h1 h2 hS (by omega),
      mkChunk_end_inner url output_file S n i h1 h2 hS hN hi]
    omega
  · rw [hlast, hlastStart]
    omega
  · intro x hx
    by_cases hq : x / (S / n.toNat) + 1 < n.toNat
    · refine ⟨x / (S / n.toNat), ⟨by omega, ?_⟩, ?_⟩
      · rw [covers_inner url output_file S n _ x h1 h2 hS hN hq]
        exact ⟨Nat.div_mul_le_self x _, (Nat.div_lt_iff_lt_mul (by omega)).1 (Nat.lt_succ_self _)⟩
      · rintro j ⟨hj, hcov⟩
        by_cases hjl : j + 1 = n.toNat
        · rw [covers_last url output_file S n j x h1 h2 hS hN hjl] at hcov
          have := (Nat.le_div_iff_mul_le (by omega : 0 < S / n.toNat)).2 hcov.1
          omega
        · rw [covers_inner url output_file S n j x h1 h2 hS hN (by omega)] at hcov
          have ha := (Nat.le_div_iff_mul_le (by omega : 0 < S / n.toNat)).2 hcov.1
          have hb := (Nat.div_lt_iff_lt_mul (by omega : 0 < S / n.toNat)).2 hcov.2
          omega
    · have hge : n.toNat - 1 ≤ x / (S / n.toNat) := by omega
      have hle := (Nat.le_div_iff_mul_le (by omega : 0 < S / n.toNat)).1 hge
      refine ⟨n.toNat - 1, ⟨by omega, ?_⟩, ?_⟩
      · rw [covers_last url output_file S n _ x h1 h2 hS hN (by omega)]
        exact ⟨hle, hx⟩
      · rintro j ⟨hj, hcov⟩
        by_cases hjl : j + 1 = n.toNat
        · omega
        · rw [covers_inner url output_file S n j x h1 h2 hS hN (by omega)] at hcov
          have hb := (Nat.div_lt_iff_lt_mul (by omega : 0 < S / n.toNat)).2 hcov.2
          omega

/-! ### Slices of the planned ranges -/

theorem mergeLoop_fs (names : List String) (o : OStream) (s : State) (p : String) :
    (mergeLoop names o s).2.fs p = if p ∈ names then none else s.fs p := by
  induction names generalizing o s with
  | nil => simp [mergeLoop]
  | cons a rest ih =>
    simp only [mergeLoop]
    cases ha : s.fs a with
    | some b =>
      simp only [ih, FS.remove, List.mem_cons]
      by_cases h1 : p ∈ rest
      · simp [h1]
      · by_cases h2 : p = a
        · simp [h2]
        · simp [h1, h2]
    | none =>
      simp only [ih, List.mem_cons]
      by_cases h1 : p ∈ rest
      · simp [h1]
      · by_cases h2 : p = a
        · simp [h2, ha, h1]
        · simp [h1, h2]

/-- Evaluation for a 1-byte resource and 2 chunks: both range requests deliver the whole
resource, every fetch succeeds, and the merged output holds the byte twice. -/
theorem downloadWithChunks_duplicates_when_size_below_count :
    (downloadWithChunks (scenarioEnv "" [9] [] true 0) "https://v" "out.bin" 2 emptyState).map
      (fun r => (r.1, r.2.fs "out.bin")) = some (true, some [9, 9]) := by
  decide

/-- After a merge every chunk file named in the loop is gone and the other paths are as the
loop found them. -/
theorem mergeLoop_removes_chunk_files (names : List String) (o : OStream) (s : State) :
    (∀ p ∈ names, (mergeLoop names o s).2.fs p = none) ∧
    (∀ p, p ∉ names → (mergeLoop names o s).2.fs p = s.fs p) := by
  constructor
  · intro p hp
    rw [mergeLoop_fs, if_pos hp]
  · intro p hp
    rw [mergeLoop_fs, if_neg hp]

end YouTubeDownloader
